import Mathlib

/-!
Verification of the BattleZips-Plonky2 circuit layer against its specification.

The development is a shallow embedding of the repository's circuit builders.
Every circuit in the source is straight-line: each new target is either a
fresh witness input or is defined (through an arithmetic gate or a copy
constraint) from previously created targets.  Witness generation in plonky2
fills every derived target deterministically from the seeded inputs, and
`prove` fails exactly when some constraint check fails on that generated
witness.  We therefore embed each builder function as a Lean function on
field *values* (the generated witness values), accumulating the boolean
outcome of every constraint check in a state monad.  Proof construction
succeeds if and only if every accumulated check is `true`.

Recursive proof verification (`builder.verify_proof`) constrains only the
wires of the verified proof itself and emits no check relating those wires
to any other target, so it contributes nothing to the check list; the public
inputs of recursively verified proofs enter the functions below only as the
seed values that the repository's `witness_*` functions copy out of the
decoded proofs.  The Poseidon hash is the external library primitive
`hash_n_to_hash_no_pad`; it is abstracted as an arbitrary function
`H : F → F → List F`.
-/

namespace BattleZips

set_option maxRecDepth 10000

/-- The Goldilocks prime 2^64 - 2^32 + 1, modulus of plonky2's base field
(`F = <PoseidonGoldilocksConfig as GenericConfig<2>>::F` in src/circuits/mod.rs). -/
def goldilocks : Nat := 18446744069414584321

/-- The Goldilocks field. -/
abbrev F := ZMod goldilocks

instance : NeZero goldilocks := ⟨by decide⟩

/-! ## The check monad

State is the list of constraint-check outcomes accumulated so far. -/

/-- Circuit-building computations: values flow functionally, constraint
checks are appended to the state. -/
abbrev CM (α : Type) := StateM (List Bool) α

/-- Record the outcome of one constraint check. -/
def emit (b : Bool) : CM Unit := modify (fun l => l ++ [b])

/-- All constraint checks of a computation succeed: this is exactly the
condition under which plonky2's `prove` succeeds on the generated witness. -/
def allOk {α : Type} (m : CM α) : Bool := ((m.run []).2).all (fun b => b)

/-- Public inputs produced by a circuit computation. -/
def pubsOf {α : Type} (m : CM α) : α := (m.run []).1

/-! ## Denotations of the plonky2 builder primitives used by the repository -/

/-- Denotation of `builder.select(b, x, y)`: the arithmetic multiplexer `b*(x - y) + y`. -/
def select (c t f : F) : F := c * (t - f) + f

/-- Denotation of `builder.is_equal(x, y)`: boolean target that is 1 iff `x = y`. -/
def is_equal (a b : F) : F := if a = b then 1 else 0

/-- Denotation of `builder.add_virtual_bool_target_safe()`: a fresh witness input `b`
together with the constraint `b * (b - 1) = 0`. -/
def assert_bool (b : F) : CM Unit := emit (decide (b * (b - 1) = 0))

/-- Denotation of `builder.random_access(i, table)`: the gate range-constrains the index
to `[0, table.len)` and yields `table[i]`. -/
def random_access (i : F) (table : List F) : CM F := do
  emit (decide (i.val < table.length))
  pure (table.getD i.val 0)

/-- Denotation of `builder.split_le_base::<2>(x, 64)`: the generator computes the 64
canonical base-2 digits of the witness value of `x` (which is `< goldilocks
< 2^64`, so the base-sum constraint holds by construction). -/
def split_le_64 (x : F) : List F :=
  (List.range 64).map (fun k => if x.val.testBit k then (1 : F) else 0)

/-! ## src/gadgets/range.rs -/

/-- The product `(0 - v)(1 - v)...(8 - v)` accumulated by the loop of
`less_than_10` (src/gadgets/range.rs lines 13-24; note the source iterates
`0..9`, i.e. nine factors). -/
def lt10Prod (v : F) : F := (List.range 9).foldl (fun e i => e * ((i : F) - v)) 1

/-- Embedding of `less_than_10(value)` (src/gadgets/range.rs lines 12-29): each loop
iteration copies `value`, subtracts it from the constant `i` and multiplies
into the running product; the final `connect(exp, zero)` is the single
constraint check of the gadget. -/
def less_than_10 (value : F) : CM Unit := emit (decide (lt10Prod value = 0))

/-! ## src/gadgets/shot.rs -/

/-- Embedding of `serialize_shot(x, y)` (src/gadgets/shot.rs lines 14-23): range checks
both coordinates and returns `x + y * 10`. -/
def serialize_shot (x y : F) : CM F := do
  less_than_10 x
  less_than_10 y
  let y_serialized := y * 10
  pure (x + y_serialized)

/-- Embedding of `decompose_board(board)` (src/gadgets/board.rs lines 21-33): split each
of the two limbs into 64 base-2 digits and concatenate. -/
def decompose_board (b0 b1 : F) : List F := split_le_64 b0 ++ split_le_64 b1

/-- Embedding of `check_hit(board, shot)` (src/gadgets/shot.rs lines 32-42): decompose
the board and fetch `bits[shot]` by random access. -/
def check_hit (b0 b1 shot : F) : CM F := random_access shot (decompose_board b0 b1)

/-! ## src/gadgets/board.rs -/

/-- The coordinate value computed by `generate_coordiante` for a given
offset: `select(z, x, x+offset) + select(z, y+offset, y) * 10`. -/
def coordVal (x y z : F) (offset : Nat) : F :=
  select z x (x + (offset : F)) + select z (y + (offset : F)) y * 10

/-- Embedding of `generate_coordiante(x, y, z, offset)` (src/gadgets/board.rs lines
89-111): range-check the offset coordinate of the plane selected by the
orientation, then serialize the multiplexed coordinate pair. -/
def generate_coordiante (x y z : F) (offset : Nat) : CM F := do
  let offset_t : F := (offset : F)
  let x_offset_t := x + offset_t
  let y_offset_t := y + offset_t
  let range_check_t := select z y_offset_t x_offset_t
  less_than_10 range_check_t
  let x_t := select z x x_offset_t
  let y_t := select z y_offset_t y
  pure (x_t + y_t * 10)

/-- The loop body of `ship_to_coordinates` (src/gadgets/board.rs lines
129-134): one `generate_coordiante` call per offset. -/
def coordLoop (x y z : F) : List Nat → CM (List F)
  | [] => pure []
  | i :: rest => do
      let c ← generate_coordiante x y z i
      let cs ← coordLoop x y z rest
      pure (c :: cs)

/-- Embedding of `ship_to_coordinates::<L>` (src/gadgets/board.rs lines 119-136):
range-check the ship head, then generate the `L` occupied coordinates. -/
def ship_to_coordinates (L : Nat) (x y z : F) : CM (List F) := do
  less_than_10 x
  less_than_10 y
  coordLoop x y z (List.range L)

/-- Embedding of `interpolate_bitflip_bool::<L>(value, coordiantes)` (src/gadgets/board.rs
lines 146-166): the product of differences, compared with zero through
`is_equal`; 1 iff `value` is one of the coordinates. -/
def interpolate_bitflip_bool (value : F) (coordiantes : List F) : F :=
  is_equal (coordiantes.foldl (fun e c => e * (c - value)) 1) 0

/-- The overlap-check loop of `place_ship` (src/gadgets/board.rs lines
187-193): fetch the current bit at each new-ship coordinate by random
access and connect it to the constant zero. -/
def overlapLoop (board : List F) : List F → CM Unit
  | [] => pure ()
  | c :: rest => do
      let coordinate ← random_access c board
      emit (decide (coordinate = 0))
      overlapLoop board rest

/-- The output board built by `place_ship` (src/gadgets/board.rs lines
195-215).  For `i < 100` the source fetches `board[i]` by random access at
the circuit constant `i` (whose index range check trivially holds) and
multiplexes the flipped bit; entries 100..127 are copied through. -/
def boardOutOf (board : List F) (ship_coordinates : List F) : List F :=
  (List.range 100).map (fun i =>
    let coordinate := board.getD i 0
    let flipped := coordinate + 1
    let should_flip := interpolate_bitflip_bool ((i : Nat) : F) ship_coordinates
    select should_flip flipped coordinate)
  ++ (List.range 28).map (fun i => board.getD (100 + i) 0)

/-- Embedding of `place_ship::<L>(ship, board)` (src/gadgets/board.rs lines 177-218):
derive the coordinates (range-checking the placement), constrain every
targeted bit of the current board to be empty, and return the board with
the ship's bits flipped. -/
def place_ship (L : Nat) (x y z : F) (board : List F) : CM (List F) := do
  let ship_coordinates ← ship_to_coordinates L x y z
  overlapLoop board ship_coordinates
  pure (boardOutOf board ship_coordinates)

/-- Embedding of `recompose_board(board)` (src/gadgets/board.rs lines 42-60): `le_sum`
of the first and second 64 bits (the bits are wrapped `new_unsafe`, so no
boolean constraint is added here). -/
def recompose_board (board : List F) : F × F :=
  ((List.range 64).foldl (fun acc i => acc + board.getD i 0 * (2 : F) ^ i) 0,
   (List.range 64).foldl (fun acc i => acc + board.getD (64 + i) 0 * (2 : F) ^ i) 0)

/-! ## src/utils/ship.rs and src/utils/board.rs (off-circuit data model) -/

/-- Model of `Ship<L>` (src/utils/ship.rs): `x`, `y` are `u8`, `z` the orientation. -/
structure Ship (L : Nat) where
  x : Fin 256
  y : Fin 256
  z : Bool

/-- The coordinate list of `Ship::coordinates` (src/utils/ship.rs lines
45-53) on raw values: all arithmetic is `u8` arithmetic, hence wraps
modulo 256.  No range check is performed. -/
def shipCoordinates (L x y : Nat) (z : Bool) : List Nat :=
  (List.range L).map (fun i =>
    let xi := if z then x else (x + i) % 256
    let yi := if z then (y + i) % 256 else y
    (yi * 10 + xi) % 256)

/-- `Ship::coordinates` (src/utils/ship.rs lines 45-53). -/
def Ship.coordinates {L : Nat} (s : Ship L) : List Nat :=
  shipCoordinates L s.x.val s.y.val s.z

/-- Model of `Board` (src/utils/board.rs lines 9-16). -/
structure Board where
  carrier : Ship 5
  battleship : Ship 4
  cruiser : Ship 3
  submarine : Ship 3
  destroyer : Ship 2

/-- Model of `Board::add_ship` (src/utils/board.rs lines 41-45): sets
`board[coordinate] = true` for every coordinate of the ship; a coordinate
past the end of the 100-entry array aborts the computation (the Rust code
panics with an index-out-of-bounds). -/
def add_ship (coords : List Nat) (board : List Bool) : Option (List Bool) :=
  coords.foldl
    (fun ob c => ob.bind (fun b =>
      if c < b.length then some (b.set c true) else none))
    (some board)

/-- Model of `Board::bits` (src/utils/board.rs lines 52-63): start from 100 empty
cells and add the five ships in order.  `none` models the panic. -/
def Board.bits (b : Board) : Option (List Bool) :=
  [b.carrier.coordinates, b.battleship.coordinates, b.cruiser.coordinates,
   b.submarine.coordinates, b.destroyer.coordinates].foldl
    (fun ob coords => ob.bind (add_ship coords))
    (some (List.replicate 100 false))

/-- The limb-packing loop of `Board::canonical` (src/utils/board.rs lines
71-85): bit `index` is or-ed into limb `index / 64` at position
`index % 64`. -/
def canonicalOf (bits : List Bool) : Nat × Nat :=
  (List.range 100).foldl
    (fun r i =>
      if bits.getD i false then
        if i / 64 = 0 then (r.1 ||| (1 <<< (i % 64)), r.2)
        else (r.1, r.2 ||| (1 <<< (i % 64)))
      else r)
    (0, 0)

/-- Model of `Board::canonical` (src/utils/board.rs lines 71-85). -/
def Board.canonical (b : Board) : Option (Nat × Nat) := b.bits.map canonicalOf

/-! ## src/circuits/game/board.rs : BoardCircuit -/

/-- A ship as witnessed into the circuit: length together with the raw
`u8` head coordinates and the orientation bit. -/
abbrev ShipT := Nat × Nat × Nat × Bool

/-- The Nat-level coordinates of a witnessed ship. -/
def coordsT (t : ShipT) : List Nat := shipCoordinates t.1 t.2.1 t.2.2.1 t.2.2.2

/-- The field seed of a witnessed ship, as set by
`BoardCircuit::partial_witness_inner` (src/circuits/game/board.rs lines
71-94). -/
def seedOf (t : ShipT) : Nat × (F × F × F) :=
  (t.1, ((t.2.1 : F), (t.2.2.1 : F), if t.2.2.2 then 1 else 0))

/-- The five ships of a board in placement order with their fixed lengths
(5, 4, 3, 3, 2). -/
def natShips (b : Board) : List ShipT :=
  [(5, b.carrier.x.val, b.carrier.y.val, b.carrier.z),
   (4, b.battleship.x.val, b.battleship.y.val, b.battleship.z),
   (3, b.cruiser.x.val, b.cruiser.y.val, b.cruiser.z),
   (3, b.submarine.x.val, b.submarine.y.val, b.submarine.z),
   (2, b.destroyer.x.val, b.destroyer.y.val, b.destroyer.z)]

/-- The sequential `place_ship` calls of `BoardCircuit::build`
(src/circuits/game/board.rs lines 150-154), folded over the ship list. -/
def place_ships : List (Nat × (F × F × F)) → List F → CM (List F)
  | [], board => pure board
  | (L, (x, y, z)) :: rest, board => do
      let b1 ← place_ship L x y z board
      place_ships rest b1

/-- Embedding of `BoardCircuit::build` (src/circuits/game/board.rs lines 124-170) with
the witness of `partial_witness_inner` already substituted: each ship
orientation is a safe bool target; the blank board is the decomposition of
the constant-zero limbs; the five ships are placed in order; the final
board is recomposed and hashed into the four public inputs. -/
def board_circuit (b : Board) (H : F → F → List F) : CM (List F) := do
  ((natShips b).map seedOf).forM (fun s => assert_bool s.2.2.2)
  let board_initial := decompose_board 0 0
  let board_final ← place_ships ((natShips b).map seedOf) board_initial
  let bf := recompose_board board_final
  pure (H bf.1 bf.2)

/-- The proof-construction outcome of `BoardCircuit::prove_inner`
(src/circuits/game/board.rs lines 178-203). -/
def boardPasses (b : Board) (H : F → F → List F) : Bool := allOk (board_circuit b H)

/-! ## src/circuits/game/shot.rs : ShotCircuit

The source `ShotCircuit::build` (lines 127-161) declares the board limbs
and passes them to `check_hit` and `hash_board`, whose signatures
(src/gadgets/shot.rs line 33, src/gadgets/board.rs line 71) take the two
64-bit limbs; the embedding follows those two-limb signatures, which is
also the layout `Board::canonical` produces for the witness. -/

/-- Embedding of `ShotCircuit::build` (src/circuits/game/shot.rs lines 127-161):
serialize the shot (range-checking both coordinates), look the bit up in
the decomposed board, and return `(serialized shot, hit)`; the public
inputs are those two values followed by the Poseidon digest of the limbs. -/
def shot_circuit (b0 b1 x y : F) : CM (F × F) := do
  let serialized_t ← serialize_shot x y
  let hit ← check_hit b0 b1 serialized_t
  pure (serialized_t, hit)

/-- The ordered public inputs of a shot proof:
`[shot_serialized, hit, commitment[0..4]]`. -/
def shot_pubs (H : F → F → List F) (b0 b1 x y : F) : List F :=
  let r := pubsOf (shot_circuit b0 b1 x y)
  [r.1, r.2] ++ H b0 b1

/-- The proof-construction outcome of `ShotCircuit::prove_inner`. -/
def shotPasses (b0 b1 x y : F) : Bool := allOk (shot_circuit b0 b1 x y)

/-! ## src/circuits/channel/open_channel.rs : ChannelOpen -/

/-- Embedding of `prove_channel_open` (src/circuits/channel/open_channel.rs lines
89-152): recursively verify the two board proofs (no check on our wires),
serialize the opening shot, and register the host proof's public inputs,
the guest proof's public inputs, and the serialized shot, in that order. -/
def prove_channel_open (host_pis guest_pis : List F) (x y : F) : CM (List F) := do
  let serialized_t ← serialize_shot x y
  pure (host_pis ++ guest_pis ++ [serialized_t])

/-- Embedding of `open_channel::decode_public` (src/circuits/channel/open_channel.rs
lines 61-79): the host commitment is read from `public_inputs[0..4]`; the
source reads the guest commitment from `public_inputs[0..4]` as well (line
71). -/
def open_decode_public (public_inputs : List F) : List Nat × List Nat :=
  ((public_inputs.take 4).map ZMod.val, (public_inputs.take 4).map ZMod.val)

/-! ## src/circuits/channel/increment_channel.rs : ChannelIncrement

The source file does not compile as written: `prove_channel_increment`
(lines 369-451) uses a variable `targets` that is never bound.  The call
`witness_prev_state(&mut pw, prev_p, targets)` (line 446) forces `targets`
to be the `GameTargets` built by `StateIncrementCircuit::game_state_targets`
(lines 185-201), exactly as `StateIncrementCircuit::prove` (lines 280-315)
does; the embedding uses that reading.  The synthesis steps of
`StateIncrementCircuit::prove` (`constrain_commitment`, `constrain_shot`,
lines 306-307) are included as well, so the embedded circuit is the union
of the constraints of both halves of the file.

All seeds below are the values the source's witness functions copy
out-of-circuit from the decoded proofs: `witness_prev_state` (lines
110-154) seeds the commitments, damages, turn and shot of the previous
state; `witness_shot` (lines 58-99) seeds the commitment, hit and shot of
the shot proof; `witness_next_shot` (lines 165-176) seeds the next shot
coordinates. -/

/-- Embedding of `StateIncrementCircuit::constrain_commitment`
(src/circuits/channel/increment_channel.rs lines 235-250): allocate four
fresh virtual targets and connect each to
`select(prev.turn, prev.guest[i], prev.host[i])`.  The `shot` argument is
never used: no constraint mentions the shot proof's commitment targets, so
the connects only give the fresh targets their values and no check is
emitted. -/
def constrain_commitment (turn : F) (host guest : List F)
    (_shot_commitment : List F) : List F :=
  (List.range 4).map (fun i => select turn (guest.getD i 0) (host.getD i 0))

/-- Embedding of `prove_channel_increment` (src/circuits/channel/increment_channel.rs
lines 369-451) together with the synthesis steps of
`StateIncrementCircuit::prove` (lines 299-312).  Arguments: the previous
state's seeds, the shot proof's seeds, and the next shot coordinates. -/
def prove_channel_increment
    (host guest : List F) (host_damage guest_damage turn shot : F)
    (commitment : List F) (hit shot_value : F)
    (next_shot_x next_shot_y : F) : CM (List F) := do
  -- add_virtual_bool_target_safe for prev.turn (line 198) and hit (line 391)
  assert_bool turn
  assert_bool hit
  -- StateIncrementCircuit::constrain_commitment (line 306)
  let _constrained_commitment := constrain_commitment turn host guest commitment
  -- StateIncrementCircuit::constrain_shot (line 307): connect(prev.shot, shot.shot)
  emit (decide (shot = shot_value))
  -- damage multiplexing (lines 406-415); note line 413 adds hit to host_damage
  let host_damage_increment := host_damage + hit
  let multiplexed_host_damage := select turn host_damage host_damage_increment
  let guest_damage_increment := host_damage + hit
  let multiplexed_guest_damage := select turn guest_damage_increment guest_damage
  -- serialize next shot (line 418)
  let serialized_t ← serialize_shot next_shot_x next_shot_y
  -- flip turn (lines 421-423); computed but never registered
  let _next_turn_t := is_equal turn 0
  -- public inputs (lines 426-438): host, guest, damages, turn target, next shot
  pure (host ++ guest ++
    [multiplexed_host_damage, multiplexed_guest_damage, turn, serialized_t])

/-- Public inputs of a state increment. -/
def incrPubs (host guest : List F) (host_damage guest_damage turn shot : F)
    (commitment : List F) (hit shot_value : F)
    (next_shot_x next_shot_y : F) : List F :=
  pubsOf (prove_channel_increment host guest host_damage guest_damage turn shot
    commitment hit shot_value next_shot_x next_shot_y)

/-- Proof-construction outcome of a state increment. -/
def incrPasses (host guest : List F) (host_damage guest_damage turn shot : F)
    (commitment : List F) (hit shot_value : F)
    (next_shot_x next_shot_y : F) : Bool :=
  allOk (prove_channel_increment host guest host_damage guest_damage turn shot
    commitment hit shot_value next_shot_x next_shot_y)

/-! ## src/circuits/channel/close_channel.rs : ChannelClose -/

/-- Embedding of `prove_close_channel` (src/circuits/channel/close_channel.rs lines
91-162) with the witness of `partial_witness` (lines 38-86) substituted:
the targets are seeded from the final state proof's public inputs
(`host_commitment = pis[0..4]`, `guest_commitment = pis[4..8]`,
`host_damage = pis[8]`, `guest_damage = pis[9]`,
`turn = (pis[10] != 0)`); the damage of the player selected by `turn` is
compared with the constant 17 and the comparison is connected to the
constant `true`; the winner and loser commitments are multiplexed by
`turn` and registered as public inputs `[0..4]` and `[4..8]`. -/
def prove_close_channel (state_pis : List F) : CM (List F) := do
  let host_commitment := state_pis.take 4
  let guest_commitment := (state_pis.drop 4).take 4
  let host_damage := state_pis.getD 8 0
  let guest_damage := state_pis.getD 9 0
  let turn : F := if state_pis.getD 10 0 = 0 then 0 else 1
  assert_bool turn
  let threshold : F := 17
  let damage_t := select turn host_damage guest_damage
  let end_condition := is_equal damage_t threshold
  -- connect(end_condition, constant_bool(true)) (line 119)
  emit (decide (end_condition = 1))
  let winner :=
    (List.range 4).map (fun i =>
      select turn (guest_commitment.getD i 0) (host_commitment.getD i 0))
  let loser :=
    (List.range 4).map (fun i =>
      select turn (host_commitment.getD i 0) (guest_commitment.getD i 0))
  pure (winner ++ loser)

/-- Proof-construction outcome of `prove_close_channel`. -/
def closePasses (state_pis : List F) : Bool := allOk (prove_close_channel state_pis)

/-- Public inputs of a channel close proof. -/
def closePubs (state_pis : List F) : List F := pubsOf (prove_close_channel state_pis)

/-! ## Concrete boards used as test vectors (spec section 8 scenarios) -/

/-- The host board of the end-to-end scenarios in the spec and the
repository's tests. -/
def hostBoardU : Board :=
  ⟨⟨3, 4, false⟩, ⟨9, 6, true⟩, ⟨0, 0, false⟩, ⟨0, 6, false⟩, ⟨6, 1, true⟩⟩

/-- Scenario C of the spec: the first Ship(3) moved onto the carrier. -/
def overlapBoardU : Board :=
  ⟨⟨3, 4, false⟩, ⟨9, 6, true⟩, ⟨3, 4, false⟩, ⟨0, 6, false⟩, ⟨6, 1, true⟩⟩

/-- The host board with the carrier at x = 8: horizontal extent leaves the
row but every computed cell index stays below 100. -/
def wrapBoardU : Board :=
  ⟨⟨8, 0, false⟩, ⟨9, 6, true⟩, ⟨0, 3, false⟩, ⟨0, 6, false⟩, ⟨6, 1, true⟩⟩

/-- The host board with the battleship moved to (0, 9) vertical: the
computed cell index 10·(9+1)+0 = 100 is out of bounds. -/
def vertBoardU : Board :=
  ⟨⟨3, 4, false⟩, ⟨0, 9, true⟩, ⟨0, 0, false⟩, ⟨0, 6, false⟩, ⟨6, 1, true⟩⟩

/-- The canonical limbs of the scenario host board. -/
def hostLimbs : Nat × Nat := (Board.canonical hostBoardU).getD (0, 0)

/-- All coordinates occupied by the five ships of a board, in placement
order. -/
def allShipCoords (b : Board) : List Nat :=
  (natShips b).map coordsT |>.flatten

/-- Two distinct ships of the board occupy a common cell. -/
def overlapping (b : Board) : Prop :=
  ¬ List.Pairwise (fun s t => ∀ c ∈ s, c ∉ t) ((natShips b).map coordsT)

/-! ## Model definitions for the board-circuit soundness argument (C8) -/

/-- The board value list maintained by the circuit after a sequence of
placements: entry `c < 100` holds the number of placed ships covering cell
`c` (each flip adds one), entries 100..127 stay zero. -/
def mkBoardF (f : Nat → Nat) : List F :=
  (List.range 100).map (fun c => ((f c : Nat) : F)) ++ List.replicate 28 (0 : F)

/-- Number of ships in `placed` covering cell `c`. -/
def cntOcc (placed : List ShipT) (c : Nat) : Nat :=
  placed.countP (fun t => decide (c ∈ coordsT t))

/-- The placement checks of the circuit admit exactly these ships: head
coordinates at most 8 and every offset cell of the oriented axis at most
8 (the nine-factor `less_than_10` rejects 9). -/
def inRangeShip (t : ShipT) : Prop :=
  t.2.1 ≤ 8 ∧ t.2.2.1 ≤ 8
    ∧ ∀ i < t.1, (if t.2.2.2 then t.2.2.1 + i else t.2.1 + i) ≤ 8

/-- Two witnessed ships occupy no common cell. -/
def DisjT (s t : ShipT) : Prop := ∀ c ∈ coordsT s, c ∉ coordsT t


instance : Nontrivial F := ⟨0, 1, by decide⟩

/-- Pairwise cell-disjointness of coordinate lists is decidable. -/
instance decPairwiseDisjoint :
    ∀ l : List (List Nat), Decidable (List.Pairwise (fun s t => ∀ c ∈ s, c ∉ t) l)
  | [] => .isTrue List.Pairwise.nil
  | _ :: l =>
    have : Decidable (List.Pairwise (fun s t => ∀ c ∈ s, c ∉ t) l) :=
      decPairwiseDisjoint l
    decidable_of_iff' _ List.pairwise_cons

instance (b : Board) : Decidable (overlapping b) :=
  inferInstanceAs
    (Decidable ¬ List.Pairwise (fun s t => ∀ c ∈ s, c ∉ t) ((natShips b).map coordsT))


/-! # Theorems -/

/-! ## General lemmas about the check monad -/


theorem run_bind {α β : Type} (m : CM α) (k : α → CM β) (s : List Bool) :
    ((m >>= k).run s) = (k (m.run s).1).run (m.run s).2 := rfl

theorem run_pure {α : Type} (a : α) (s : List Bool) :
    ((pure a : CM α).run s) = (a, s) := rfl

theorem run_emit (b : Bool) (s : List Bool) :
    ((emit b).run s) = ((), s ++ [b]) := rfl

theorem run_less_than_10 (v : F) (s : List Bool) :
    ((less_than_10 v).run s) = ((), s ++ [decide (lt10Prod v = 0)]) := rfl

theorem select_one (a b : F) : select 1 a b = a := by
  simp [select]

theorem select_zero (a b : F) : select 0 a b = b := by
  simp [select]

set_option maxRecDepth 100000 in
/-- Behaviour of the nine-factor range product on every value a `u8`-based
witness can feed it: only 0..8 are admitted. -/
theorem lt10_char : ∀ n : Nat, n < 264 → (lt10Prod ((n : Nat) : F) = 0 ↔ n ≤ 8) := by
  decide

/-! ## Claim C2 : less_than_10 range -/

/-- Claim C2.  The spec states `less_than_10(v)` is satisfiable iff
`v ∈ {0..9}` and in particular that `v = 9` is accepted.  The source's
nine-factor product rejects 9: the gadget's single constraint fails at
`v = 9`, and over every value a `u8`-seeded witness can supply (all sums
seen by the gadget are below 264) the constraint holds exactly for
`v ∈ {0..8}`. -/
theorem less_than_10_rejects_nine :
    allOk (less_than_10 (9 : F)) = false
    ∧ (∀ n : Nat, n < 264 → (allOk (less_than_10 ((n : Nat) : F)) = true ↔ n ≤ 8)) := by
  constructor
  · decide
  · intro n hn
    have h := lt10_char n hn
    simp [allOk, run_less_than_10, List.all_append]
    exact h

/-- Witness for C2: the largest admitted value, 8, passes the gadget. -/
theorem less_than_10_rejects_nine_witness :
    allOk (less_than_10 ((8 : Nat) : F)) = true :=
  (less_than_10_rejects_nine.2 8 (by decide)).mpr (by decide)

/-! ## Claim C3 : published turn -/

/-- Claim C3.  The spec states public input 10 of a state increment is
`NOT prev.turn`.  The source computes `next_turn_t = is_equal(turn, 0)` but
registers `targets.turn.target` itself (line 435), so public input 10
always equals the previous turn; with `prev.turn = 0` the circuit passes
and publishes 0 where the claim requires 1. -/
theorem increment_publishes_unflipped_turn :
    (∀ (h0 h1 h2 h3 g0 g1 g2 g3 hd gd t sv : F) (c : List F) (hit nx ny : F),
      (incrPubs [h0, h1, h2, h3] [g0, g1, g2, g3] hd gd t sv c hit sv nx ny).getD 10 0 = t)
    ∧ incrPasses [1, 2, 3, 4] [5, 6, 7, 8] 3 5 0 7 [9, 9, 9, 9] 1 7 3 4 = true
    ∧ (incrPubs [1, 2, 3, 4] [5, 6, 7, 8] 3 5 0 7 [9, 9, 9, 9] 1 7 3 4).getD 10 0 = 0
    ∧ ((0 : F) = 1 → False) := by
  refine ⟨?_, by decide, by decide, by decide⟩
  intro h0 h1 h2 h3 g0 g1 g2 g3 hd gd t sv c hit nx ny
  rfl

/-- Witness for C3: the published turn target at a concrete state. -/
theorem increment_publishes_unflipped_turn_witness :
    (incrPubs [1, 2, 3, 4] [5, 6, 7, 8] 3 5 1 7 [0, 0, 0, 0] 0 7 3 4).getD 10 0 = 1 :=
  increment_publishes_unflipped_turn.1 1 2 3 4 5 6 7 8 3 5 1 7 [0, 0, 0, 0] 0 3 4

/-! ## Claim C4 : damage update -/

/-- Claim C4.  The spec requires
`guest_damage' = turn ? guest_damage + hit : guest_damage`.  The source's
`guest_damage_increment` (line 413) adds `hit` to `host_damage`, so the
circuit publishes `select turn (host_damage + hit) guest_damage` at index
9 (and the claimed `select turn host_damage (host_damage + hit)` at index
8).  Concretely, with `turn = 1`, `host_damage = 3`, `guest_damage = 5`,
`hit = 1`, the increment passes and publishes guest damage 4 instead of
the claimed 6. -/
theorem increment_guest_damage_uses_host_damage :
    (∀ (h0 h1 h2 h3 g0 g1 g2 g3 hd gd t sv : F) (c : List F) (hit nx ny : F),
      (incrPubs [h0, h1, h2, h3] [g0, g1, g2, g3] hd gd t sv c hit sv nx ny).getD 8 0
          = select t hd (hd + hit)
      ∧ (incrPubs [h0, h1, h2, h3] [g0, g1, g2, g3] hd gd t sv c hit sv nx ny).getD 9 0
          = select t (hd + hit) gd)
    ∧ incrPasses [1, 2, 3, 4] [5, 6, 7, 8] 3 5 1 7 [9, 9, 9, 9] 1 7 3 4 = true
    ∧ (incrPubs [1, 2, 3, 4] [5, 6, 7, 8] 3 5 1 7 [9, 9, 9, 9] 1 7 3 4).getD 9 0 = 4
    ∧ ((4 : F) = 6 → False) := by
  refine ⟨?_, by decide, by decide, by decide⟩
  intro h0 h1 h2 h3 g0 g1 g2 g3 hd gd t sv c hit nx ny
  exact ⟨rfl, rfl⟩

/-- Witness for C4: the damage formulas at a concrete state. -/
theorem increment_guest_damage_uses_host_damage_witness :
    (incrPubs [1, 2, 3, 4] [5, 6, 7, 8] 2 9 1 7 [0, 0, 0, 0] 1 7 3 4).getD 8 0
        = select 1 2 (2 + 1)
    ∧ (incrPubs [1, 2, 3, 4] [5, 6, 7, 8] 2 9 1 7 [0, 0, 0, 0] 1 7 3 4).getD 9 0
        = select 1 (2 + 1) 9 :=
  increment_guest_damage_uses_host_damage.1 1 2 3 4 5 6 7 8 2 9 1 7 [0, 0, 0, 0] 1 3 4

/-! ## Claim C1 : shot-proof commitment binding -/

/-- Claim C1.  The spec states the commitment multiplexed from the previous
state is connected limb-by-limb to the commitment of the shot proof and
that an increment against a mismatched commitment must fail.  In the
source, `constrain_commitment` connects the multiplexed limbs only to four
freshly allocated virtual targets and never touches its `shot` argument,
and nothing in `prove_channel_increment` uses the shot commitment targets:
the circuit is entirely independent of the witnessed shot-proof
commitment, and a concrete increment whose shot commitment `[9,9,9,9]`
differs from the selected previous commitment `[1,2,3,4]` passes all
checks. -/
theorem increment_ignores_shot_commitment :
    (∀ (t : F) (host guest c c' : List F),
      constrain_commitment t host guest c = constrain_commitment t host guest c')
    ∧ (∀ (t : F) (host guest c : List F),
      constrain_commitment t host guest c
        = (List.range 4).map (fun i => select t (guest.getD i 0) (host.getD i 0)))
    ∧ (∀ (host guest : List F) (hd gd t sv : F) (c c' : List F) (hit sv' nx ny : F),
      prove_channel_increment host guest hd gd t sv c hit sv' nx ny
        = prove_channel_increment host guest hd gd t sv c' hit sv' nx ny)
    ∧ incrPasses [1, 2, 3, 4] [5, 6, 7, 8] 3 5 0 7 [9, 9, 9, 9] 1 7 3 4 = true
    ∧ (select 0 (([5, 6, 7, 8] : List F).getD 0 0) (([1, 2, 3, 4] : List F).getD 0 0) = 1
        ∧ ((9 : F) = 1 → False)) := by
  refine ⟨fun _ _ _ _ _ => rfl, fun _ _ _ _ => rfl, ?_, by decide, by decide, by decide⟩
  intro host guest hd gd t sv c c' hit sv' nx ny
  rfl

/-- Witness for C1: independence instantiated at two concrete shot-proof
commitments. -/
theorem increment_ignores_shot_commitment_witness :
    constrain_commitment 0 [1, 2, 3, 4] [5, 6, 7, 8] [9, 9, 9, 9]
      = constrain_commitment 0 [1, 2, 3, 4] [5, 6, 7, 8] [1, 2, 3, 4] :=
  increment_ignores_shot_commitment.1 0 [1, 2, 3, 4] [5, 6, 7, 8] [9, 9, 9, 9] [1, 2, 3, 4]

/-! ## Claim C9 : hit is unconstrained by the verified proofs -/

/-- Claim C9.  The decoded shot-proof outputs and previous-state fields are
fresh virtual targets seeded out-of-circuit and never copy-constrained to
the public inputs of the recursively verified proofs (those proofs do not
appear in the constraint system relating the fresh targets at all; they
enter the embedding only through the seed values).  Consequently, for the
same fixed pair of proofs, seeding `hit = 0` or `hit = 1` produces exactly
the same check list, and the two runs publish damage values differing by 1
at the counter selected by the turn. -/
theorem increment_hit_unconstrained :
    ∀ (h0 h1 h2 h3 g0 g1 g2 g3 hd gd sv : F) (tb : Bool) (c : List F) (nx ny : F),
      ((prove_channel_increment [h0, h1, h2, h3] [g0, g1, g2, g3] hd gd
          (if tb then 1 else 0) sv c 0 sv nx ny).run []).2
        = ((prove_channel_increment [h0, h1, h2, h3] [g0, g1, g2, g3] hd gd
          (if tb then 1 else 0) sv c 1 sv nx ny).run []).2
      ∧ (incrPubs [h0, h1, h2, h3] [g0, g1, g2, g3] hd gd (if tb then 1 else 0) sv c 1 sv nx ny).getD
            (if tb then 9 else 8) 0
        = (incrPubs [h0, h1, h2, h3] [g0, g1, g2, g3] hd gd (if tb then 1 else 0) sv c 0 sv nx ny).getD
            (if tb then 9 else 8) 0 + 1
      ∧ (incrPubs [h0, h1, h2, h3] [g0, g1, g2, g3] hd gd (if tb then 1 else 0) sv c 1 sv nx ny).getD
            (if tb then 9 else 8) 0
        ≠ (incrPubs [h0, h1, h2, h3] [g0, g1, g2, g3] hd gd (if tb then 1 else 0) sv c 0 sv nx ny).getD
            (if tb then 9 else 8) 0 := by
  intro h0 h1 h2 h3 g0 g1 g2 g3 hd gd sv tb c nx ny
  cases tb
  · refine ⟨?_, ?_, ?_⟩
    · simp [prove_channel_increment, run_bind, run_pure, run_emit, assert_bool,
        serialize_shot, run_less_than_10]
    · show select 0 hd (hd + 1) = select 0 hd (hd + 0) + 1
      simp [select_zero]
    · show select 0 hd (hd + 1) ≠ select 0 hd (hd + 0)
      simp [select_zero]
  · refine ⟨?_, ?_, ?_⟩
    · simp [prove_channel_increment, run_bind, run_pure, run_emit, assert_bool,
        serialize_shot, run_less_than_10]
    · show select 1 (hd + 1) gd = select 1 (hd + 0) gd + 1
      simp [select_one]
    · show select 1 (hd + 1) gd ≠ select 1 (hd + 0) gd
      simp [select_one]

/-- Witness for C9: the hit-independence at one concrete state. -/
theorem increment_hit_unconstrained_witness :
    ((prove_channel_increment [1, 2, 3, 4] [5, 6, 7, 8] 3 5 (if false then 1 else 0) 7
        [9, 9, 9, 9] 0 7 3 4).run []).2
      = ((prove_channel_increment [1, 2, 3, 4] [5, 6, 7, 8] 3 5 (if false then 1 else 0) 7
        [9, 9, 9, 9] 1 7 3 4).run []).2
    ∧ (incrPubs [1, 2, 3, 4] [5, 6, 7, 8] 3 5 (if false then 1 else 0) 7
        [9, 9, 9, 9] 1 7 3 4).getD (if false then 9 else 8) 0
      = (incrPubs [1, 2, 3, 4] [5, 6, 7, 8] 3 5 (if false then 1 else 0) 7
        [9, 9, 9, 9] 0 7 3 4).getD (if false then 9 else 8) 0 + 1
    ∧ (incrPubs [1, 2, 3, 4] [5, 6, 7, 8] 3 5 (if false then 1 else 0) 7
        [9, 9, 9, 9] 1 7 3 4).getD (if false then 9 else 8) 0
      ≠ (incrPubs [1, 2, 3, 4] [5, 6, 7, 8] 3 5 (if false then 1 else 0) 7
        [9, 9, 9, 9] 0 7 3 4).getD (if false then 9 else 8) 0 :=
  increment_hit_unconstrained 1 2 3 4 5 6 7 8 3 5 7 false [9, 9, 9, 9] 3 4

/-! ## Claim C5 : channel close -/

/-- Claim C5.  `prove_close_channel` succeeds iff the damage counter
selected by the turn of the final state (host damage if `turn` is set,
guest damage otherwise) equals 17, and the public inputs are the winner
commitment (the other player's) at 0..4 followed by the loser commitment
at 4..8. -/
theorem close_channel_end_condition :
    ∀ c0 c1 c2 c3 g0 g1 g2 g3 dh dg t s : F,
      (closePasses [c0, c1, c2, c3, g0, g1, g2, g3, dh, dg, t, s] = true
        ↔ (if t = 0 then dg else dh) = 17)
      ∧ closePubs [c0, c1, c2, c3, g0, g1, g2, g3, dh, dg, t, s]
        = if t = 0 then [c0, c1, c2, c3, g0, g1, g2, g3]
          else [g0, g1, g2, g3, c0, c1, c2, c3] := by
  intro c0 c1 c2 c3 g0 g1 g2 g3 dh dg t s
  by_cases ht : t = 0
  · subst ht
    constructor
    · simp [closePasses, allOk, prove_close_channel, run_bind, run_pure, run_emit,
        assert_bool, select_zero, is_equal]
    · simp [closePubs, pubsOf, prove_close_channel, run_bind, run_pure, run_emit,
        select_zero, List.range_succ]
  · constructor
    · simp [closePasses, allOk, prove_close_channel, run_bind, run_pure, run_emit,
        assert_bool, select_one, is_equal, ht]
    · simp [closePubs, pubsOf, prove_close_channel, run_bind, run_pure, run_emit,
        select_one, ht, List.range_succ]

/-- Witness for C5: a final state with 17 host hits closes, crowning the
guest. -/
theorem close_channel_end_condition_witness :
    (closePasses [1, 2, 3, 4, 5, 6, 7, 8, 17, 3, 1, 0] = true
      ↔ (if (1 : F) = 0 then (3 : F) else 17) = 17)
    ∧ closePubs [1, 2, 3, 4, 5, 6, 7, 8, 17, 3, 1, 0]
      = if (1 : F) = 0 then [1, 2, 3, 4, 5, 6, 7, 8] else [5, 6, 7, 8, 1, 2, 3, 4] :=
  close_channel_end_condition 1 2 3 4 5 6 7 8 17 3 1 0

/-! ## Claim C6 : channel open public inputs and decoding -/

/-- Claim C6.  A channel open proof registers the host proof's public
inputs, then the guest proof's, then the serialized opening shot, giving
the claimed layout `[host 0..4, guest 4..8, shot 8]`.  But
`open_channel::decode_public` reads *both* commitments from slice
`[0..4]`: on public inputs `[1..8, 0]` it returns `[1,2,3,4]` for the
guest instead of the claimed `[5,6,7,8]`. -/
theorem open_pub_inputs_and_decode :
    (∀ (host_pis guest_pis : List F) (x y : F),
      pubsOf (prove_channel_open host_pis guest_pis x y)
        = host_pis ++ guest_pis ++ [x + y * 10])
    ∧ open_decode_public [1, 2, 3, 4, 5, 6, 7, 8, 0] = ([1, 2, 3, 4], [1, 2, 3, 4])
    ∧ (([1, 2, 3, 4] : List Nat) = [5, 6, 7, 8] → False) := by
  refine ⟨?_, by decide, by decide⟩
  intro host_pis guest_pis x y
  rfl

/-- Witness for C6: the public-input layout at a concrete opening. -/
theorem open_pub_inputs_and_decode_witness :
    pubsOf (prove_channel_open [1, 2, 3, 4] [5, 6, 7, 8] 3 4)
      = [1, 2, 3, 4] ++ [5, 6, 7, 8] ++ [3 + 4 * 10] :=
  open_pub_inputs_and_decode.1 [1, 2, 3, 4] [5, 6, 7, 8] 3 4

/-! ## Claim C7 : shot circuit -/

set_option maxRecDepth 1000000 in
/-- Claim C7.  On the scenario host board the shot circuit publishes
`[10·y+x, hit, H(limbs)]` with the hit equal to the board bit — at (3,4) a
hit, at (0,1) a miss — but a shot with a coordinate equal to 9 (here
(9,6), a true hit on the battleship) fails the nine-factor range check, so
the spec's full range [0,9]² is not admitted. -/
theorem shot_circuit_eval_and_range :
    (pubsOf (shot_circuit ((hostLimbs.1 : Nat) : F) ((hostLimbs.2 : Nat) : F) 3 4) = (43, 1)
      ∧ shotPasses ((hostLimbs.1 : Nat) : F) ((hostLimbs.2 : Nat) : F) 3 4 = true
      ∧ (hostBoardU.bits.getD []).getD 43 false = true
      ∧ pubsOf (shot_circuit ((hostLimbs.1 : Nat) : F) ((hostLimbs.2 : Nat) : F) 0 1) = (10, 0)
      ∧ shotPasses ((hostLimbs.1 : Nat) : F) ((hostLimbs.2 : Nat) : F) 0 1 = true
      ∧ (hostBoardU.bits.getD []).getD 10 false = false
      ∧ (∀ H : F → F → List F,
          shot_pubs H ((hostLimbs.1 : Nat) : F) ((hostLimbs.2 : Nat) : F) 3 4
            = [43, 1] ++ H ((hostLimbs.1 : Nat) : F) ((hostLimbs.2 : Nat) : F)))
    ∧ shotPasses ((hostLimbs.1 : Nat) : F) ((hostLimbs.2 : Nat) : F) 9 6 = false := by
  refine ⟨⟨by decide, by decide, by decide, by decide, by decide, by decide, ?_⟩, by decide⟩
  intro H
  have h : pubsOf (shot_circuit ((hostLimbs.1 : Nat) : F) ((hostLimbs.2 : Nat) : F) 3 4)
      = (43, 1) := by decide
  simp [shot_pubs, h]

set_option maxRecDepth 1000000 in
/-- Witness for C7: the public-input layout under a concrete hash. -/
theorem shot_circuit_eval_and_range_witness :
    shot_pubs (fun a b => [a, b, a, b]) ((hostLimbs.1 : Nat) : F) ((hostLimbs.2 : Nat) : F) 3 4
      = [43, 1] ++ [((hostLimbs.1 : Nat) : F), ((hostLimbs.2 : Nat) : F),
          ((hostLimbs.1 : Nat) : F), ((hostLimbs.2 : Nat) : F)] :=
  shot_circuit_eval_and_range.1.2.2.2.2.2.2 (fun a b => [a, b, a, b])

/-! ## Lemmas on Board::bits for claim C10 -/

theorem add_ship_cons (c : Nat) (cs : List Nat) (b : List Bool) :
    add_ship (c :: cs) b
      = if c < b.length then add_ship cs (b.set c true) else
          cs.foldl (fun ob c => ob.bind (fun b =>
            if c < b.length then some (b.set c true) else none))
            (none : Option (List Bool)) := by
  by_cases h : c < b.length <;> simp [add_ship, h]

theorem add_ship_foldl_none (cs : List Nat) :
    cs.foldl (fun ob c => ob.bind (fun b =>
      if c < b.length then some (b.set c true) else none))
      (none : Option (List Bool)) = none := by
  induction cs with
  | nil => rfl
  | cons c cs ih => simpa using ih

theorem add_ship_none_iff (cs : List Nat) (b : List Bool) :
    add_ship cs b = none ↔ ∃ c ∈ cs, b.length ≤ c := by
  induction cs generalizing b with
  | nil => simp [add_ship]
  | cons c cs ih =>
    rw [add_ship_cons]
    by_cases h : c < b.length
    · simp only [h, if_true, ih, List.length_set]
      constructor
      · rintro ⟨d, hd, hdl⟩
        exact ⟨d, List.mem_cons_of_mem _ hd, hdl⟩
      · rintro ⟨d, hd, hdl⟩
        rcases List.mem_cons.mp hd with rfl | hd
        · omega
        · exact ⟨d, hd, hdl⟩
    · simp only [h, if_false, add_ship_foldl_none, true_iff]
      exact ⟨c, List.mem_cons_self c cs, by omega⟩

theorem add_ship_some_length (cs : List Nat) (b b' : List Bool)
    (h : add_ship cs b = some b') : b'.length = b.length := by
  induction cs generalizing b with
  | nil =>
    simp [add_ship] at h
    simp [h]
  | cons c cs ih =>
    rw [add_ship_cons] at h
    by_cases hc : c < b.length
    · simp only [hc, if_true] at h
      have := ih (b.set c true) h
      simpa using this
    · simp [hc, add_ship_foldl_none] at h

theorem foldl_obind_none (ls : List (List Nat)) :
    ls.foldl (fun ob coords => ob.bind (add_ship coords)) none = none := by
  induction ls with
  | nil => rfl
  | cons s ls ih => simpa using ih

theorem foldl_add_ship_none (ls : List (List Nat)) :
    ∀ (board : List Bool), board.length = 100 →
      (∃ s ∈ ls, ∃ c ∈ s, 100 ≤ c) →
      ls.foldl (fun ob coords => ob.bind (add_ship coords)) (some board) = none := by
  induction ls with
  | nil => intro b _ h; simp at h
  | cons s ls ih =>
    intro b hb hbad
    rcases hbad with ⟨s', hs', c, hc, hcl⟩
    rcases List.mem_cons.mp hs' with rfl | hs'
    · have : add_ship s' b = none := by
        rw [add_ship_none_iff]
        exact ⟨c, hc, by omega⟩
      simp [this, foldl_obind_none]
    · cases h : add_ship s b with
      | none => simp [h, foldl_obind_none]
      | some b' =>
        have hb' : b'.length = 100 := by rw [add_ship_some_length s b b' h, hb]
        simpa [h] using ih b' hb' ⟨s', hs', c, hc, hcl⟩

/-! ## Claim C10 : Board::bits performs no range validation -/

/-- Claim C10.  `Ship::coordinates` does no range checking and
`Board::bits` indexes a 100-entry array with the raw result: a board
containing a ship with a computed cell index above 99 makes `bits` abort
with an out-of-bounds index (e.g. the board whose battleship sits at (0,9)
vertical, index 100), while a horizontal ship with x+L > 10 whose indices
all stay below 100 (the board whose carrier sits at (8,0)) is silently
wrapped onto the next row, marking cells 10, 11, 12. -/
theorem board_bits_no_range_validation :
    (∀ b : Board, (∃ c ∈ allShipCoords b, 100 ≤ c) → b.bits = none)
    ∧ (wrapBoardU.bits ≠ none
      ∧ (wrapBoardU.bits.getD []).getD 10 false = true
      ∧ (wrapBoardU.bits.getD []).getD 11 false = true
      ∧ (wrapBoardU.bits.getD []).getD 12 false = true)
    ∧ vertBoardU.bits = none := by
  refine ⟨?_, ⟨by decide, by decide, by decide, by decide⟩, by decide⟩
  intro b hbad
  have h : ∃ s ∈ [b.carrier.coordinates, b.battleship.coordinates, b.cruiser.coordinates,
      b.submarine.coordinates, b.destroyer.coordinates], ∃ c ∈ s, 100 ≤ c := by
    rcases hbad with ⟨c, hc, hcl⟩
    rcases List.mem_flatten.mp hc with ⟨s, hs, hcs⟩
    exact ⟨s, hs, c, hcs, hcl⟩
  exact foldl_add_ship_none _ (List.replicate 100 false) (by simp) h

/-- Witness for C10: the vertical out-of-range board aborts. -/
theorem board_bits_no_range_validation_witness :
    vertBoardU.bits = none :=
  board_bits_no_range_validation.1 vertBoardU (by decide)

/-! ## List access lemmas -/

theorem getD_range_map {α : Type} (n c : Nat) (f : Nat → α) (d : α) (h : c < n) :
    ((List.range n).map f).getD c d = f c := by
  rw [List.getD_eq_getElem ((List.range n).map f) d (by simpa using h)]
  simp

theorem mkBoardF_length (f : Nat → Nat) : (mkBoardF f).length = 128 := by
  simp [mkBoardF]

theorem mkBoardF_getD_lo (f : Nat → Nat) (c : Nat) (h : c < 100) :
    (mkBoardF f).getD c 0 = ((f c : Nat) : F) := by
  rw [mkBoardF, List.getD_append _ _ _ _ (by simpa using h)]
  exact getD_range_map 100 c _ 0 h

theorem mkBoardF_getD_hi (f : Nat → Nat) (c : Nat) (h : 100 ≤ c) :
    (mkBoardF f).getD c 0 = 0 := by
  rw [mkBoardF, List.getD_append_right _ _ _ _ (by simpa using h)]
  rcases Nat.lt_or_ge (c - ((List.range 100).map fun c => ((f c : Nat) : F)).length) 28
    with hlt | hge
  · rw [List.getD_eq_getElem _ _ (by simpa using hlt)]
    exact List.getElem_replicate ..
  · rw [List.getD_eq_default _ _ (by simpa using hge)]

/-! ## Field cast lemmas -/

theorem natCast_F_eq_zero_iff (n : Nat) (h : n < 256) : (((n : Nat) : F) = 0 ↔ n = 0) := by
  rw [ZMod.natCast_zmod_eq_zero_iff_dvd]
  constructor
  · intro hd
    exact Nat.eq_zero_of_dvd_of_lt hd (by
      have : (256 : Nat) < goldilocks := by decide
      omega)
  · rintro rfl; exact dvd_zero _

theorem val_natCast_small (n : Nat) (h : n < 256) : (((n : Nat) : F)).val = n :=
  ZMod.val_cast_of_lt (by
    have : (256 : Nat) < goldilocks := by decide
    omega)

/-! ## The interpolation product -/

theorem foldl_mul_prod {α : Type} (l : List α) (f : α → F) (a : F) :
    l.foldl (fun e v => e * f v) a = a * (l.map f).prod := by
  induction l generalizing a with
  | nil => simp
  | cons x l ih => simp [ih, mul_assoc]

theorem abs_diff_prod_le (cs : List Nat) (c : Nat) (h100 : ∀ v ∈ cs, v < 100)
    (hc : c < 100) :
    |(cs.map (fun v : Nat => ((v : ℤ) - (c : ℤ)))).prod| ≤ 99 ^ cs.length := by
  induction cs with
  | nil => simp
  | cons v cs ih =>
    have hv : v < 100 := h100 v (List.mem_cons_self v cs)
    have h1 : |(v : ℤ) - (c : ℤ)| ≤ 99 := by
      rw [abs_le]; omega
    have h2 := ih (fun w hw => h100 w (List.mem_cons_of_mem _ hw))
    calc |((v :: cs).map (fun v : Nat => ((v : ℤ) - (c : ℤ)))).prod|
        = |(v : ℤ) - (c : ℤ)| * |(cs.map (fun v : Nat => ((v : ℤ) - (c : ℤ)))).prod| := by
          simp [abs_mul]
      _ ≤ 99 * 99 ^ cs.length := by
          exact mul_le_mul h1 h2 (abs_nonneg _) (by norm_num)
      _ = 99 ^ (v :: cs).length := by
          simp [pow_succ]; ring

theorem interp_prod_zero_iff (cs : List Nat) (c : Nat) (h100 : ∀ v ∈ cs, v < 100)
    (hc : c < 100) (hlen : cs.length ≤ 5) :
    ((cs.map (fun v : Nat => ((v : Nat) : F))).foldl
        (fun e cf => e * (cf - ((c : Nat) : F))) 1 = 0)
      ↔ c ∈ cs := by
  rw [List.foldl_map, foldl_mul_prod, one_mul]
  have hcast : ∀ l : List Nat, (l.map (fun v : Nat => (((v : Nat) : F) - ((c : Nat) : F)))).prod
      = (((l.map (fun v : Nat => ((v : ℤ) - (c : ℤ)))).prod : ℤ) : F) := by
    intro l
    induction l with
    | nil => simp
    | cons v l ih =>
      simp only [List.map_cons, List.prod_cons, ih]
      push_cast
      ring
  rw [hcast cs, ZMod.intCast_zmod_eq_zero_iff_dvd]
  have habs := abs_diff_prod_le cs c h100 hc
  have hblt : (99 : ℤ) ^ cs.length < (goldilocks : ℤ) := by
    calc (99 : ℤ) ^ cs.length ≤ 99 ^ 5 := by
          apply pow_le_pow_right₀ (by norm_num) hlen
      _ < (goldilocks : ℤ) := by decide
  constructor
  · intro hd
    have hz : (cs.map (fun v : Nat => ((v : ℤ) - (c : ℤ)))).prod = 0 :=
      Int.eq_zero_of_abs_lt_dvd hd (lt_of_le_of_lt habs hblt)
    rcases List.prod_eq_zero_iff.mp hz with hmem
    rcases List.mem_map.mp hmem with ⟨v, hv, hveq⟩
    have : v = c := by omega
    rwa [this] at hv
  · intro hmem
    have : ((0 : ℤ)) ∈ cs.map (fun v : Nat => ((v : ℤ) - (c : ℤ))) := by
      refine List.mem_map.mpr ⟨c, hmem, by omega⟩
    rw [List.prod_eq_zero_iff.mpr this]
    exact dvd_zero _

/-! ## Run characterizations of the board-circuit gadgets -/

theorem random_access_run (i : F) (table : List F) (s : List Bool) :
    (random_access i table).run s
      = (table.getD i.val 0, s ++ [decide (i.val < table.length)]) := rfl

theorem generate_coordiante_run (x y z : F) (off : Nat) (s : List Bool) :
    (generate_coordiante x y z off).run s
      = (coordVal x y z off,
         s ++ [decide (lt10Prod (select z (y + (off : F)) (x + (off : F))) = 0)]) := rfl

theorem coordLoop_run (x y z : F) : ∀ (l : List Nat) (s : List Bool),
    (coordLoop x y z l).run s
      = (l.map (coordVal x y z),
         s ++ l.map (fun (i : Nat) =>
           decide (lt10Prod (select z (y + (i : F)) (x + (i : F))) = 0))) := by
  intro l
  induction l with
  | nil => intro s; simp [coordLoop, run_pure]
  | cons i l ih =>
    intro s
    simp [coordLoop, run_bind, generate_coordiante_run, ih, run_pure, List.append_assoc]

theorem ship_to_coordinates_run (L : Nat) (x y z : F) (s : List Bool) :
    (ship_to_coordinates L x y z).run s
      = ((List.range L).map (coordVal x y z),
         s ++ ([decide (lt10Prod x = 0)] ++ [decide (lt10Prod y = 0)]
           ++ (List.range L).map (fun (i : Nat) =>
             decide (lt10Prod (select z (y + (i : F)) (x + (i : F))) = 0)))) := by
  simp only [ship_to_coordinates, run_bind, run_less_than_10, coordLoop_run]
  simp only [List.append_assoc]

theorem overlapLoop_cons_run (board : List F) (c : F) (cs : List F) (s : List Bool) :
    (overlapLoop board (c :: cs)).run s
      = (overlapLoop board cs).run
          ((s ++ [decide (c.val < board.length)])
            ++ [decide (board.getD c.val 0 = 0)]) := rfl

theorem overlapLoop_mono (board : List F) : ∀ (cs : List F) (s : List Bool),
    ((overlapLoop board cs).run s).2 = s ++ ((overlapLoop board cs).run []).2 := by
  intro cs
  induction cs with
  | nil => intro s; simp [overlapLoop, run_pure]
  | cons c cs ih =>
    intro s
    rw [overlapLoop_cons_run, overlapLoop_cons_run]
    rw [ih ((s ++ [decide (c.val < board.length)]) ++ [decide (board.getD c.val 0 = 0)])]
    rw [ih (([] ++ [decide (c.val < board.length)]) ++ [decide (board.getD c.val 0 = 0)])]
    simp [List.append_assoc]

theorem overlapLoop_all (board : List F) : ∀ (cs : List F) (s : List Bool),
    ((((overlapLoop board cs).run s).2).all (fun b => b) = true)
      ↔ (s.all (fun b => b) = true
          ∧ ∀ c ∈ cs, c.val < board.length ∧ board.getD c.val 0 = 0) := by
  intro cs
  induction cs with
  | nil => intro s; simp [overlapLoop, run_pure]
  | cons c cs ih =>
    intro s
    rw [overlapLoop_cons_run]
    rw [ih (((s ++ [decide (c.val < board.length)]) ++ [decide (board.getD c.val 0 = 0)]))]
    simp only [List.all_append, List.mem_cons, Bool.and_eq_true, List.all_cons,
      List.all_nil, decide_eq_true_eq, and_true]
    constructor
    · rintro ⟨⟨⟨hs, h1⟩, h2⟩, hrest⟩
      refine ⟨hs, ?_⟩
      intro d hd
      rcases hd with rfl | hd
      · exact ⟨h1, h2⟩
      · exact hrest d hd
    · rintro ⟨hs, hall⟩
      exact ⟨⟨⟨hs, (hall c (Or.inl rfl)).1⟩, (hall c (Or.inl rfl)).2⟩,
        fun d hd => hall d (Or.inr hd)⟩

theorem place_ship_run_val (L : Nat) (x y z : F) (board : List F) (s : List Bool) :
    ((place_ship L x y z board).run s).1
      = boardOutOf board ((List.range L).map (coordVal x y z)) := by
  simp only [place_ship, run_bind, run_pure]
  rw [ship_to_coordinates_run]

theorem place_ship_run_state (L : Nat) (x y z : F) (board : List F) (s : List Bool) :
    ((place_ship L x y z board).run s).2
      = ((overlapLoop board ((List.range L).map (coordVal x y z))).run
          (((ship_to_coordinates L x y z).run s).2)).2 := by
  simp only [place_ship, run_bind, run_pure]
  rw [ship_to_coordinates_run]

theorem place_ship_all (L : Nat) (x y z : F) (board : List F) (s : List Bool) :
    ((((place_ship L x y z board).run s).2).all (fun b => b) = true)
      ↔ (s.all (fun b => b) = true
          ∧ lt10Prod x = 0 ∧ lt10Prod y = 0
          ∧ (∀ i ∈ List.range L, lt10Prod (select z (y + (i : F)) (x + (i : F))) = 0)
          ∧ (∀ c ∈ (List.range L).map (coordVal x y z),
              c.val < board.length ∧ board.getD c.val 0 = 0)) := by
  rw [place_ship_run_state, overlapLoop_all, ship_to_coordinates_run]
  simp only [List.all_append, Bool.and_eq_true, List.all_cons, List.all_nil,
    decide_eq_true_eq, and_true]
  simp only [List.all_eq_true, List.mem_map, decide_eq_true_eq, forall_exists_index,
    and_imp, forall_apply_eq_imp_iff₂]
  constructor
  · rintro ⟨⟨hs, ⟨hA, hB⟩, hP⟩, hQ⟩
    exact ⟨hs, hA, hB, hP, hQ⟩
  · rintro ⟨hs, hA, hB, hP, hQ⟩
    exact ⟨⟨hs, ⟨hA, hB⟩, hP⟩, hQ⟩

theorem place_ship_mono (L : Nat) (x y z : F) (board : List F) (s : List Bool) :
    ((place_ship L x y z board).run s).2
      = s ++ ((place_ship L x y z board).run []).2 := by
  rw [place_ship_run_state, place_ship_run_state]
  rw [ship_to_coordinates_run, ship_to_coordinates_run]
  rw [overlapLoop_mono, overlapLoop_mono _ _ ([] ++ _)]
  simp [List.append_assoc]

theorem place_ships_mono : ∀ (ls : List (Nat × (F × F × F))) (board : List F) (s : List Bool),
    ((place_ships ls board).run s).2 = s ++ ((place_ships ls board).run []).2 := by
  intro ls
  induction ls with
  | nil => intro board s; simp [place_ships, run_pure]
  | cons t ls ih =>
    intro board s
    rcases t with ⟨L, x, y, z⟩
    simp only [place_ships, run_bind]
    rw [place_ship_run_val, place_ship_run_val]
    rw [ih _ (((place_ship L x y z board).run s).2),
      ih _ (((place_ship L x y z board).run []).2)]
    rw [place_ship_mono]
    simp [List.append_assoc]

/-! ## Coordinates of in-range ships -/

theorem coordsT_eq_of_inRange (t : ShipT) (hr : inRangeShip t) :
    coordsT t = (List.range t.1).map (fun i =>
      if t.2.2.2 then (t.2.2.1 + i) * 10 + t.2.1 else t.2.2.1 * 10 + (t.2.1 + i)) := by
  rcases t with ⟨L, x, y, z⟩
  obtain ⟨hx, hy, hoff⟩ := hr
  simp only at hx hy hoff
  unfold coordsT shipCoordinates
  apply List.map_congr_left
  intro i hi
  have hiL : i < L := List.mem_range.mp hi
  have h8 := hoff i hiL
  cases z
  · simp only [Bool.false_eq_true, if_false] at h8 ⊢
    omega
  · simp only [if_true] at h8 ⊢
    omega

theorem coordsT_lt_100 (t : ShipT) (hr : inRangeShip t) : ∀ v ∈ coordsT t, v < 100 := by
  intro v hv
  rw [coordsT_eq_of_inRange t hr] at hv
  rcases List.mem_map.mp hv with ⟨i, hi, rfl⟩
  have hiL : i < t.1 := List.mem_range.mp hi
  have h8 := hr.2.2 i hiL
  have hx := hr.1
  have hy := hr.2.1
  rcases t with ⟨L, x, y, z⟩
  simp only at hx hy h8
  cases z
  · simp only [Bool.false_eq_true, if_false] at h8 ⊢
    omega
  · simp only [if_true] at h8 ⊢
    omega

theorem coordsT_length (t : ShipT) : (coordsT t).length = t.1 := by
  simp [coordsT, shipCoordinates]

theorem coordsF_eq (t : ShipT) (hr : inRangeShip t) :
    (List.range t.1).map (coordVal ((t.2.1 : Nat) : F) ((t.2.2.1 : Nat) : F)
        (if t.2.2.2 then 1 else 0))
      = (coordsT t).map (fun v : Nat => ((v : Nat) : F)) := by
  rw [coordsT_eq_of_inRange t hr, List.map_map]
  apply List.map_congr_left
  intro i _
  rcases t with ⟨L, x, y, z⟩
  cases z
  · simp only [Function.comp, Bool.false_eq_true, if_false]
    simp only [coordVal, select_zero]
    push_cast
    ring
  · simp only [Function.comp, if_true]
    simp only [coordVal, select_one]
    push_cast
    ring

theorem inRange_of_checks (t : ShipT) (hx : t.2.1 < 256) (hy : t.2.2.1 < 256)
    (hL : t.1 ≤ 5)
    (h1 : lt10Prod ((t.2.1 : Nat) : F) = 0) (h2 : lt10Prod ((t.2.2.1 : Nat) : F) = 0)
    (h3 : ∀ i ∈ List.range t.1, lt10Prod (select (if t.2.2.2 then 1 else 0)
        (((t.2.2.1 : Nat) : F) + (i : F)) (((t.2.1 : Nat) : F) + (i : F))) = 0) :
    inRangeShip t := by
  refine ⟨(lt10_char _ (by omega)).mp h1, (lt10_char _ (by omega)).mp h2, ?_⟩
  intro i hiL
  have h := h3 i (List.mem_range.mpr hiL)
  rcases t with ⟨L, x, y, z⟩
  simp only at hx hy hiL h ⊢
  cases z with
  | true =>
    rw [if_pos rfl, select_one] at h
    rw [if_pos rfl]
    have hc : ((y : Nat) : F) + (i : F) = (((y + i : Nat) : Nat) : F) := by push_cast; ring
    rw [hc] at h
    exact (lt10_char (y + i) (by omega)).mp h
  | false =>
    rw [if_neg (by simp), select_zero] at h
    rw [if_neg (by simp)]
    have hc : ((x : Nat) : F) + (i : F) = (((x + i : Nat) : Nat) : F) := by push_cast; ring
    rw [hc] at h
    exact (lt10_char (x + i) (by omega)).mp h

/-! ## Board evolution under one placement -/

theorem cntOcc_append (placed : List ShipT) (t : ShipT) (c : Nat) :
    cntOcc (placed ++ [t]) c
      = cntOcc placed c + (if c ∈ coordsT t then 1 else 0) := by
  simp [cntOcc, List.countP_append, List.countP_cons]

theorem boardOut_step (placed : List ShipT) (t : ShipT) (hr : inRangeShip t)
    (hL : t.1 ≤ 5) :
    boardOutOf (mkBoardF (cntOcc placed))
        ((List.range t.1).map (coordVal ((t.2.1 : Nat) : F) ((t.2.2.1 : Nat) : F)
          (if t.2.2.2 then 1 else 0)))
      = mkBoardF (cntOcc (placed ++ [t])) := by
  rw [coordsF_eq t hr]
  unfold boardOutOf
  conv_rhs => rw [mkBoardF]
  congr 1
  · apply List.map_congr_left
    intro c hc
    have hc100 : c < 100 := List.mem_range.mp hc
    rw [mkBoardF_getD_lo _ _ hc100]
    rw [interpolate_bitflip_bool]
    have hiff := interp_prod_zero_iff (coordsT t) c (coordsT_lt_100 t hr) hc100
      (by rw [coordsT_length]; exact hL)
    rw [cntOcc_append]
    by_cases hmem : c ∈ coordsT t
    · rw [is_equal, if_pos (hiff.mpr hmem), select_one, if_pos hmem]
      push_cast
      ring
    · rw [is_equal, if_neg (fun hz => hmem (hiff.mp hz)), select_zero, if_neg hmem]
      simp only [Nat.add_zero]

/-! ## Soundness of the placement chain -/

theorem place_ships_sound :
    ∀ (ss placed : List ShipT) (s : List Bool),
      (∀ t ∈ ss, t.1 ≤ 5 ∧ t.2.1 < 256 ∧ t.2.2.1 < 256) →
      placed.length + ss.length ≤ 5 →
      List.Pairwise DisjT placed →
      ((((place_ships (ss.map seedOf) (mkBoardF (cntOcc placed))).run s).2).all
          (fun b => b) = true) →
      List.Pairwise DisjT (placed ++ ss) := by
  intro ss
  induction ss with
  | nil =>
    intro placed s _ _ hpw _
    simpa using hpw
  | cons t ss ih =>
    intro placed s hbounds hlen hpw hall
    obtain ⟨hL, hx, hy⟩ := hbounds t (List.mem_cons_self t ss)
    rcases t with ⟨L, x, y, z⟩
    simp only at hL hx hy
    simp only [List.map_cons, seedOf, place_ships, run_bind] at hall
    rw [place_ship_run_val] at hall
    rw [place_ships_mono] at hall
    simp only [List.all_append, Bool.and_eq_true] at hall
    obtain ⟨hhead, hrest⟩ := hall
    rw [place_ship_all] at hhead
    obtain ⟨-, h1, h2, h3, h4⟩ := hhead
    have hr : inRangeShip (L, x, y, z) :=
      inRange_of_checks (L, x, y, z) hx hy hL h1 h2 h3
    have hb := boardOut_step placed (L, x, y, z) hr hL
    rw [hb] at hrest
    have hnotin : ∀ nc ∈ coordsT (L, x, y, z), cntOcc placed nc = 0 := by
      intro nc hnc
      have hcF : (((nc : Nat) : F)) ∈ (List.range L).map
          (coordVal ((x : Nat) : F) ((y : Nat) : F) (if z then 1 else 0)) := by
        rw [coordsF_eq (L, x, y, z) hr]
        exact List.mem_map.mpr ⟨nc, hnc, rfl⟩
      have h := (h4 _ hcF).2
      have hval : (((nc : Nat) : F)).val = nc :=
        val_natCast_small nc (by have := coordsT_lt_100 (L, x, y, z) hr nc hnc; omega)
      rw [hval, mkBoardF_getD_lo _ _ (coordsT_lt_100 (L, x, y, z) hr nc hnc)] at h
      exact (natCast_F_eq_zero_iff _ (by
        have := List.countP_le_length
          (p := fun u => decide (nc ∈ coordsT u)) (l := placed)
        simp only [cntOcc]
        omega)).mp h
    have hdisj : ∀ p ∈ placed, DisjT p (L, x, y, z) := by
      intro p hp c hcp hct
      have h0 := hnotin c hct
      rw [cntOcc, List.countP_eq_zero] at h0
      exact h0 p hp (by simpa using hcp)
    have hpw' : List.Pairwise DisjT (placed ++ [(L, x, y, z)]) := by
      rw [List.pairwise_append]
      refine ⟨hpw, by simp, ?_⟩
      intro a ha b hb
      rcases List.mem_singleton.mp hb with rfl
      exact hdisj a ha
    have hres := ih (placed ++ [(L, x, y, z)]) []
      (fun u hu => hbounds u (List.mem_cons_of_mem _ hu))
      (by simp at hlen ⊢; omega) hpw' hrest
    rw [List.append_cons]
    exact hres

theorem forM_assert_cons (u : Nat × (F × F × F)) (l : List (Nat × (F × F × F)))
    (s : List Bool) :
    ((u :: l).forM (fun u => assert_bool u.2.2.2)).run s
      = (l.forM (fun u => assert_bool u.2.2.2)).run
          (s ++ [decide (u.2.2.2 * (u.2.2.2 - 1) = 0)]) := rfl

theorem forM_assert_run (l : List (Nat × (F × F × F))) : ∀ s : List Bool,
    ((l.forM (fun u => assert_bool u.2.2.2)).run s).2
      = s ++ l.map (fun u => decide (u.2.2.2 * (u.2.2.2 - 1) = 0)) := by
  induction l with
  | nil => intro s; simp [List.forM, run_pure]
  | cons u l ih =>
    intro s
    rw [forM_assert_cons]
    rw [ih (s ++ [decide (u.2.2.2 * (u.2.2.2 - 1) = 0)])]
    simp [List.append_assoc]

theorem decompose_zero : decompose_board 0 0 = mkBoardF (cntOcc []) := by decide



/-! ## Claim C8 : overlap rejection -/

/-- Claim C8.  For every board two of whose ships occupy a common cell,
the board circuit's generated witness violates a constraint, so proof
construction fails: each `place_ship` call looks up the current board bit
at each of the new ship's cells by random access and connects it to the
constant zero before flipping, and a previously placed overlapping ship
has already driven that bit to a non-zero count (when the overlapping
placement is even out of the admitted coordinate range, the range check
fails instead). -/
theorem board_circuit_rejects_overlap (b : Board) (H : F → F → List F)
    (hov : overlapping b) : boardPasses b H = false := by
  cases hpass : boardPasses b H
  · rfl
  · exfalso
    apply hov
    rw [List.pairwise_map]
    have hall : (((board_circuit b H).run []).2).all (fun x => x) = true := by
      have : allOk (board_circuit b H) = true := hpass
      exact this
    rw [board_circuit] at hall
    rw [run_bind] at hall
    rw [run_bind] at hall
    simp only [run_pure] at hall
    rw [forM_assert_run] at hall
    rw [decompose_zero] at hall
    have hsound := place_ships_sound (natShips b) [] _
      (by
        intro t ht
        simp only [natShips, List.mem_cons, List.not_mem_nil, or_false] at ht
        rcases ht with rfl | rfl | rfl | rfl | rfl
        · exact ⟨by norm_num, Fin.is_lt _, Fin.is_lt _⟩
        · exact ⟨by norm_num, Fin.is_lt _, Fin.is_lt _⟩
        · exact ⟨by norm_num, Fin.is_lt _, Fin.is_lt _⟩
        · exact ⟨by norm_num, Fin.is_lt _, Fin.is_lt _⟩
        · exact ⟨by norm_num, Fin.is_lt _, Fin.is_lt _⟩)
      (by simp [natShips]) List.Pairwise.nil hall
    simpa using hsound

/-- Witness for C8: Scenario C of the spec (the first Ship(3) collides
with the carrier) is overlapping and its board proof fails. -/
theorem board_circuit_rejects_overlap_witness :
    overlapping overlapBoardU ∧ boardPasses overlapBoardU (fun a b => [a, b]) = false :=
  ⟨by decide, board_circuit_rejects_overlap overlapBoardU (fun a b => [a, b]) (by decide)⟩

end BattleZips
